import Mathlib

/-
Shallow embedding of the ledger-scanning and streaming core of
src/server.js of the Arweave Block Explorer repository.

The remote collaborators (the info endpoint, the by-height block endpoint
and the GraphQL query endpoint) are modelled as oracles passed in as
function or list parameters; a network failure is an oracle answering
none or a fail marker.  Wall-clock sleeps are irrelevant to the claims
and are dropped.  Each definition cites the server.js lines it embeds.
-/

namespace ABE

/-- A raw tag as returned by the remote query (name / value pairs). -/
structure Tag where
  name : String
  value : String
deriving DecidableEq

/-- A transaction node as returned by the remote query: id, data.size,
tags, and, for the tag-filtered media query only, block.timestamp
(server.js lines 110-117 and 197-204). -/
structure TxNode where
  id : String
  dataSize : Nat
  tags : List Tag
  blockTimestamp : Option Nat
deriving DecidableEq

/-- server.js lines 53, 221, 349: tags.reduce building a JS object by
assigning acc[t.name] = t.value left to right.  The resulting object keeps
the first position of each key and the last assigned value. -/
def collapseTags (tags : List Tag) : List (String × String) :=
  tags.foldl (fun acc t =>
    if acc.any (fun p => p.1 = t.name) then
      acc.map (fun p => if p.1 = t.name then (p.1, t.value) else p)
    else acc ++ [(t.name, t.value)]) []

/-- Reading a property of the collapsed JS tag object: first (unique)
entry with the given key, none when the property is absent. -/
def assocGet (m : List (String × String)) (n : String) : Option String :=
  match m with
  | [] => none
  | p :: rest => if p.1 = n then some p.2 else assocGet rest n

/-- JS a || b for a string-or-undefined a: undefined and the empty
string are falsy. -/
def jsOrS (a : Option String) (b : String) : String :=
  match a with
  | none => b
  | some s => if s = "" then b else s

/-- JS ct.includes applied to the slash character. -/
def hasSlash (s : String) : Bool :=
  s.toList.contains '/'

/-- JS ct.split at the slash character, component 0: the prefix of the
string before its first slash. -/
def mainTokenOf (s : String) : String :=
  String.mk (s.toList.takeWhile (fun c => c != '/'))

/-- server.js line 54: tagsObj of Content-Type, else of content-type,
else the string other (QuickBackwardScan classifier input). -/
def ctQuick (m : List (String × String)) : String :=
  jsOrS (assocGet m "Content-Type") (jsOrS (assocGet m "content-type") "other")

/-- server.js line 56: primary token when the value has a slash, else the
value itself (else other when empty, which cannot happen after line 54). -/
def mainQuick (ct : String) : String :=
  if hasSlash ct then mainTokenOf ct else (if ct = "" then "other" else ct)

/-- server.js line 57: the fixed quick-scan category table. -/
def keyQuick (m : List (String × String)) : String :=
  let mt := mainQuick (ctQuick m)
  if (["image", "video", "audio", "application"]).contains mt then mt else "other"

/-- server.js line 222: only the exact-case Content-Type property is read
in the tagged media scan. -/
def ctMedia (m : List (String × String)) : String :=
  jsOrS (assocGet m "Content-Type") "other"

/-- server.js line 223: primary token when the value has a slash, else
the string other. -/
def mainMedia (ct : String) : String :=
  if hasSlash ct then mainTokenOf ct else "other"

/-- server.js line 224: the fixed media-scan category table, which does
not contain application. -/
def keyMedia (m : List (String × String)) : String :=
  let mt := mainMedia (ctMedia m)
  if (["image", "video", "audio"]).contains mt then mt else "other"

/-- A record as pushed into a bucket (server.js lines 59-65 and 226-232). -/
structure MediaRecord where
  id : String
  data_size : Nat
  tags : List (String × String)
  height : Nat
  timestamp : Nat
deriving DecidableEq

/-- server.js lines 59-65: the quick scan stores the scanned height and
the block timestamp in the record. -/
def quickRecord (h ts : Nat) (n : TxNode) : MediaRecord :=
  { id := n.id, data_size := n.dataSize, tags := collapseTags n.tags,
    height := h, timestamp := ts }

/-- server.js lines 226-232: the tagged media scan stores
node.block timestamp (defaulting to 0) in BOTH the height field and the
timestamp field of the record. -/
def mediaRecord (n : TxNode) : MediaRecord :=
  { id := n.id, data_size := n.dataSize, tags := collapseTags n.tags,
    height := n.blockTimestamp.getD 0, timestamp := n.blockTimestamp.getD 0 }

/-- The five per-category buckets (server.js lines 22 and 167). -/
structure Buckets where
  image : List MediaRecord
  video : List MediaRecord
  audio : List MediaRecord
  application : List MediaRecord
  other : List MediaRecord
deriving DecidableEq

def emptyBuckets : Buckets :=
  { image := [], video := [], audio := [], application := [], other := [] }

/-- JS buckets[key].  Both classifiers only ever produce one of the five
keys, so the final fallback arm is only reached for the key other. -/
def Buckets.get (b : Buckets) (k : String) : List MediaRecord :=
  if k = "image" then b.image
  else if k = "video" then b.video
  else if k = "audio" then b.audio
  else if k = "application" then b.application
  else b.other

/-- JS buckets[key].push. -/
def Buckets.push (b : Buckets) (k : String) (r : MediaRecord) : Buckets :=
  if k = "image" then { b with image := b.image ++ [r] }
  else if k = "video" then { b with video := b.video ++ [r] }
  else if k = "audio" then { b with audio := b.audio ++ [r] }
  else if k = "application" then { b with application := b.application ++ [r] }
  else { b with other := b.other ++ [r] }

/-- server.js lines 58 and 225: push the record only while the length of
the target bucket is below the per-category limit; otherwise drop it. -/
def bucketOffer (limit : Nat) (b : Buckets) (k : String) (r : MediaRecord) : Buckets :=
  if (Buckets.get b k).length < limit then Buckets.push b k r else b

/-- server.js lines 25-29 and 170-174: the scans keep going while the
image, video or audio bucket is below the limit. -/
def wantMore (b : Buckets) (limit : Nat) : Bool :=
  decide (b.image.length < limit) || decide (b.video.length < limit) ||
    decide (b.audio.length < limit)

/-- A transaction as attached to a newBlock message
(server.js lines 346-350). -/
structure DayTx where
  id : String
  data_size : Nat
  tags : List (String × String)
deriving DecidableEq

def dayTxOf (n : TxNode) : DayTx :=
  { id := n.id, data_size := n.dataSize, tags := collapseTags n.tags }

/-- server.js line 352: a transaction is visual when its Content-Type tag
is present, truthy and starts with the image slash prefix. -/
def dayTxVisual (t : DayTx) : Bool :=
  match assocGet t.tags "Content-Type" with
  | some v => v.startsWith "image/"
  | none => false

/-- The messages the server pushes over the connection (section 6 of the
spec).  towersProgress carries the wire type towers_partial and
towersFinal the wire type towers. -/
inductive ServerMsg where
  | loadingStatus (message : String)
  | towersProgress (data : Buckets)
  | towersFinal (data : Buckets)
  | newBlock (timestamp height : Nat) (transactions : List DayTx) (isVisual : Bool)
  | dayStreamComplete
  | errorMsg (message : String)
deriving DecidableEq

def ServerMsg.isDayComplete : ServerMsg → Bool
  | .dayStreamComplete => true
  | _ => false

/-- A GraphQL result page (edges plus the pageInfo hasNextPage flag). -/
structure Page where
  edges : List TxNode
  hasNextPage : Bool
deriving DecidableEq

/-- The three observable outcomes of one paginated request in
fetchAllBlockTransactions: a page, a response without a transactions
object (server.js line 147), or a thrown request (line 125). -/
inductive PageResp where
  | ok (edges : List TxNode) (hasNextPage : Bool)
  | noPage
  | fail
deriving DecidableEq

/-- A log entry for one remote request issued by the page fetcher; the
argument of paged and of fallback is the first-N cap the query carries
(both query strings in server.js lines 108 and 131 say first 100). -/
inductive ReqLog where
  | paged (cap : Nat) (failed : Bool)
  | fallback (cap : Nat)
deriving DecidableEq

def ReqLog.isPaged : ReqLog → Bool
  | .paged _ _ => true
  | _ => false

def ReqLog.isFallback : ReqLog → Bool
  | .fallback _ => true
  | _ => false

def ReqLog.isFailedPage : ReqLog → Bool
  | .paged _ f => f
  | _ => false

def ReqLog.cap : ReqLog → Nat
  | .paged c _ => c
  | .fallback c => c

/-- server.js lines 105-156: the pagination loop.  resp answers the
i-th paginated request (i counts completed successful requests, exactly
the JS attempts counter), fb is the outcome of the unpaginated fallback
query (none when it also throws).  The fuel argument is
maxAttempts - attempts, so the loop guard attempts < maxAttempts is
fuel > 0.  The function returns the accumulated edges in order together
with the log of requests it issued; edge accumulation by appending is
written here as result concatenation. -/
def fetchLoop (resp : Nat → PageResp) (fb : Option (List TxNode)) :
    Nat → Nat → (List TxNode × List ReqLog)
  | 0, _ => ([], [])
  | fuel + 1, attempts =>
    match resp attempts with
    | .fail =>
      match fb with
      | some fbEdges => (fbEdges, [.paged 100 true, .fallback 100])
      | none => ([], [.paged 100 true, .fallback 100])
    | .noPage => ([], [.paged 100 false])
    | .ok es hnp =>
      if hnp then
        let r := fetchLoop resp fb fuel (attempts + 1)
        (es ++ r.1, .paged 100 false :: r.2)
      else (es, [.paged 100 false])

/-- server.js lines 97-158: fetchAllBlockTransactions with
maxAttempts = 10 and hasNextPage initially true. -/
def fetchAllBlockTransactions (resp : Nat → PageResp) (fb : Option (List TxNode)) :
    List TxNode × List ReqLog :=
  fetchLoop resp fb 10 0

/-- server.js lines 50-68: the per-edge consumption of one height in the
quick scan.  Before every edge the loop re-checks wantMore and breaks
when no media bucket wants more; the push itself is guarded by the
per-category limit.  Returns the buckets and the number of pushed
records (additionsSinceLastSend increments). -/
def processEdgesQuick (limit h ts : Nat) :
    List TxNode → Buckets → Nat → (Buckets × Nat)
  | [], b, pushed => (b, pushed)
  | n :: rest, b, pushed =>
    if wantMore b limit = false then (b, pushed)
    else
      let key := keyQuick (collapseTags n.tags)
      let pushed2 := if (Buckets.get b key).length < limit then pushed + 1 else pushed
      let b2 := bucketOffer limit b key (quickRecord h ts n)
      processEdgesQuick limit h ts rest b2 pushed2

/-- server.js lines 31-84: the quick backward scan loop.  bf gives the
block timestamp by height (none models a failed block fetch or a falsy
body, lines 39-43), txs gives the fetched edges by height, wsOpenAt
gives the readyState test at the top of each iteration (indexed by the
scanned counter).  The fuel argument rem equals maxScans - scanned.
Returns the emitted messages and the final buckets. -/
def quickLoop (bf : Nat → Option Nat) (txs : Nat → List TxNode)
    (wsOpenAt : Nat → Bool) (limit : Nat) :
    Nat → Nat → Nat → Buckets → Nat → (List ServerMsg × Buckets)
  | 0, _, _, b, _ => ([], b)
  | rem + 1, h, scanned, b, adds =>
    if h = 0 then ([], b)
    else if wsOpenAt scanned = false then ([], b)
    else
      match bf h with
      | none => quickLoop bf txs wsOpenAt limit rem (h - 1) (scanned + 1) b adds
      | some ts =>
        let pr := processEdgesQuick limit h ts (txs h) b 0
        let adds2 := adds + pr.2
        let scanned2 := scanned + 1
        if scanned2 = 1 ∨ scanned2 % 25 = 0 ∨ 20 ≤ adds2 then
          let r := quickLoop bf txs wsOpenAt limit rem (h - 1) scanned2 pr.1 0
          (ServerMsg.loadingStatus "Quick scanned progress" ::
            ServerMsg.towersProgress pr.1 :: r.1, r.2)
        else quickLoop bf txs wsOpenAt limit rem (h - 1) scanned2 pr.1 adds2

/-- server.js lines 16-94: streamRecentTransactionsQuick.  info is the
frontier height from the info endpoint (none models a thrown info fetch,
reaching the outer catch of line 89).  After the loop the final towers
snapshot and a closing loadingStatus are always sent. -/
def streamRecentTransactionsQuick (bf : Nat → Option Nat) (txs : Nat → List TxNode)
    (wsOpenAt : Nat → Bool) (info : Option Nat)
    (blockScanLimit perTypeLimit : Nat) : List ServerMsg :=
  match info with
  | none => [ServerMsg.errorMsg "Quick towers failed"]
  | some height =>
    let maxScans := max 10 (min 20000 blockScanLimit)
    let r := quickLoop bf txs wsOpenAt perTypeLimit maxScans height 0 emptyBuckets 0
    r.1 ++ [ServerMsg.towersFinal r.2,
      ServerMsg.loadingStatus "Media tower ready"]

/-- server.js lines 219-235: the tagged media scan consumes every edge of
a page (no per-edge wantMore break) with the same capacity-guarded push. -/
def mediaProcessEdges (limit : Nat) :
    List TxNode → Buckets → Nat → (Buckets × Nat)
  | [], b, pushed => (b, pushed)
  | n :: rest, b, pushed =>
    let key := keyMedia (collapseTags n.tags)
    let pushed2 := if (Buckets.get b key).length < limit then pushed + 1 else pushed
    let b2 := bucketOffer limit b key (mediaRecord n)
    mediaProcessEdges limit rest b2 pushed2

/-- server.js lines 185-244: the per-content-type pagination loop of the
tagged media scan.  The oracle list answers the successive requests for
this content type; none models a thrown request (line 213) or a response
without a transactions object (line 218), both of which break.  The loop
guard re-checks wantMore before every request; a snapshot is emitted
whenever 20 or more records were pushed since the last one.  Returns the
emitted messages, the buckets and the pending additions counter. -/
def mediaLoop (limit : Nat) :
    List (Option Page) → Buckets → Nat → (List ServerMsg × Buckets × Nat)
  | resps, b, adds =>
    if wantMore b limit = false then ([], b, adds)
    else
      match resps with
      | [] => ([], b, adds)
      | none :: _ => ([], b, adds)
      | some pg :: rest =>
        let pr := mediaProcessEdges limit pg.edges b 0
        let adds2 := adds + pr.2
        let ems := if 20 ≤ adds2 then [ServerMsg.towersProgress pr.1] else []
        let adds3 := if 20 ≤ adds2 then 0 else adds2
        if pg.hasNextPage then
          let r := mediaLoop limit rest pr.1 adds3
          (ems ++ r.1, r.2)
        else (ems, pr.1, adds3)

/-- server.js lines 163-165: the start of the 30-day window, computed
from the current time in milliseconds. -/
def mediaStartTs (nowMs days : Nat) : Nat :=
  (nowMs - days * 86400000) / 1000

/-- server.js lines 161-252: streamMediaTransactions.  The three oracle
lists answer the paginated requests of the three content-type scans,
which run sequentially and share the buckets and the additions counter.
The window start mediaStartTs is computed exactly as in the source and,
exactly as in the source, never applied as a filter anywhere below. -/
def streamMediaTransactions (nowMs days limit : Nat)
    (pagesI pagesV pagesA : List (Option Page)) : List ServerMsg :=
  let _startTs := mediaStartTs nowMs days
  let r1 := mediaLoop limit pagesI emptyBuckets 0
  let r2 := mediaLoop limit pagesV r1.2.1 r1.2.2
  let r3 := mediaLoop limit pagesA r2.2.1 r2.2.2
  ServerMsg.loadingStatus "Searching for media transactions" ::
    (r1.1 ++ r2.1 ++ r3.1 ++ [ServerMsg.towersFinal r3.2.1])

/-- JS midpoint of line 279: low + floor of half of high - low. -/
def midOf (low hi1 : Nat) : Nat :=
  low + (hi1 - 1 - low) / 2

/-- server.js lines 278-293: the binary-search loop of
findStartHeightForDate.  hi1 stands for high + 1 so that the JS value
high = -1 is hi1 = 0; the loop guard low LE high is low < hi1.  bf
answers the block probe at a height (none models a thrown probe, which
takes the catch of line 288 and searches lower).  cand is the JS
startHeight variable (none for -1).  The loop shrinks hi1 - low on every
iteration, so a fuel of at least hi1 - low makes the zero-fuel arm
unreachable and the function coincide with the JS while loop. -/
def locLoop (bf : Nat → Option Nat) (target : Nat) :
    Nat → Nat → Nat → Option Nat → Option Nat
  | 0, _, _, cand => cand
  | fuel + 1, low, hi1, cand =>
    if low < hi1 then
      match bf (midOf low hi1) with
      | none => locLoop bf target fuel low (midOf low hi1) cand
      | some ts =>
        if target ≤ ts then
          locLoop bf target fuel low (midOf low hi1) (some (midOf low hi1))
        else locLoop bf target fuel (midOf low hi1 + 1) hi1 cand
    else cand

/-- server.js lines 264-308: findStartHeightForDate.  info is the
frontier height from the info endpoint; when the info fetch throws, the
outer catch returns 0 (line 306).  When no candidate was found the
function returns frontier + 1 (line 297).  The initial interval is
[0, frontier], of size frontier + 1, which the fuel covers. -/
def findStartHeightForDate (bf : Nat → Option Nat) (target : Nat)
    (info : Option Nat) : Nat :=
  match info with
  | none => 0
  | some frontier =>
    match locLoop bf target (frontier + 1) 0 (frontier + 1) none with
    | none => frontier + 1
    | some h => h

/-- The loadingStatus of line 266 plus the error message of line 305 on a
thrown info fetch. -/
def findStartMsgs (info : Option Nat) : List ServerMsg :=
  ServerMsg.loadingStatus "Finding start block for the day" ::
    (match info with
     | none => [ServerMsg.errorMsg "Failed to find start block"]
     | some _ => [])

/-- The environment of one day scan: block timestamps by height (none is
a thrown block fetch, taking the catch of line 368), fetched transactions
by height, and the readyState and cancellation flag observed at the
checkpoint of each loop iteration (line 330), indexed by iteration. -/
structure DayEnv where
  bf : Nat → Option Nat
  txs : Nat → List TxNode
  wsOpenAt : Nat → Bool
  stopAt : Nat → Bool

/-- server.js lines 328-372: the streaming loop of streamBlocksForDay.
Returns none when the fuel runs out before the loop breaks (the JS loop
would still be running), otherwise the emitted messages and the
visualBlockSent flag.  A block whose timestamp exceeds endTs breaks the
loop without being emitted (lines 339-342); a failed block fetch skips
the height (lines 368-371). -/
def dayLoop (env : DayEnv) (endTs : Nat) (visualOnly : Bool) :
    Nat → Nat → Nat → Bool → Option (List ServerMsg × Bool)
  | 0, _, _, _ => none
  | fuel + 1, h, step, vsent =>
    if !env.wsOpenAt step || env.stopAt step then some ([], vsent)
    else
      match env.bf h with
      | none => dayLoop env endTs visualOnly fuel (h + 1) (step + 1) vsent
      | some ts =>
        if endTs < ts then some ([], vsent)
        else
          let transactions := (env.txs h).map dayTxOf
          let hasVisual := transactions.any dayTxVisual
          if !visualOnly || hasVisual then
            let vsent2 := if visualOnly && hasVisual then true else vsent
            match dayLoop env endTs visualOnly fuel (h + 1) (step + 1) vsent2 with
            | none => none
            | some r => some (ServerMsg.newBlock ts h transactions hasVisual :: r.1, r.2)
          else dayLoop env endTs visualOnly fuel (h + 1) (step + 1) vsent

/-- The three status messages emitted before the day loop starts
(server.js lines 313, 266, 305, 326). -/
def dayPreMsgs (info : Option Nat) : List ServerMsg :=
  ServerMsg.loadingStatus "Finding start block for date" ::
    findStartMsgs info ++ [ServerMsg.loadingStatus "Streaming blocks for date"]

/-- server.js lines 310-386: streamBlocksForDay.  target is the target
timestamp handed to the height locator, info the frontier from the info
endpoint, endTs the end-of-day bound (or the client override).  After
the loop, dayStreamComplete is sent exactly when visualOnly is false
(lines 376-378); the returned flag is visualBlockSent. -/
def streamBlocksForDay (env : DayEnv) (target : Nat) (info : Option Nat)
    (endTs : Nat) (visualOnly : Bool) (fuel : Nat) :
    Option (List ServerMsg × Bool) :=
  let startHeight := findStartHeightForDate env.bf target info
  match dayLoop env endTs visualOnly fuel startHeight 0 false with
  | none => none
  | some r =>
    some (dayPreMsgs info ++ r.1 ++
      (if visualOnly then [] else [ServerMsg.dayStreamComplete]), r.2)

/-- A parsed client message, a JS object whose properties are all
optional (server.js lines 395-461 reads type, date, start, end,
perTypeLimit and blockScanLimit).  The numeric fields are modelled by
their string form as seen by parseInt. -/
structure ParsedMsg where
  type : Option String
  date : Option String
  start : Option String
  endF : Option String
  perTypeLimit : Option String
  blockScanLimit : Option String
deriving DecidableEq

/-- JS parseInt with radix 10 on a digit-prefixed string: the leading
digit run, or NaN (none) when there is no leading digit. -/
def jsParseInt (s : String) : Option Nat :=
  let ds := s.toList.takeWhile (fun c => c.isDigit)
  if ds.isEmpty then none
  else some (ds.foldl (fun a c => a * 10 + (c.toNat - 48)) 0)

/-- JS n || d for the result of parseInt: NaN and 0 are falsy. -/
def jsOrNat (o : Option Nat) (d : Nat) : Nat :=
  match o with
  | none => d
  | some 0 => d
  | some n => n

/-- server.js line 445: the clamp of perTypeLimit for get_towers_recent_30d. -/
def limit30 (m : ParsedMsg) : Nat :=
  max 1 (min 2000 (jsOrNat (jsParseInt (jsOrS m.perTypeLimit "500")) 500))

/-- server.js line 453: the clamp of perTypeLimit for get_towers_quick. -/
def quickPerType (m : ParsedMsg) : Nat :=
  max 50 (min 1000 (jsOrNat (jsParseInt (jsOrS m.perTypeLimit "200")) 200))

/-- server.js line 454: the clamp of blockScanLimit for get_towers_quick. -/
def quickBlockLimit (m : ParsedMsg) : Nat :=
  max 200 (min 20000 (jsOrNat (jsParseInt (jsOrS m.blockScanLimit "3000")) 3000))

/-- Which scan the handler launched, mirroring the call made in each
branch of server.js lines 397-461.  The day constructor records whether
a fresh streamControl was created and passed to the scan (true in both
day branches); the two tower constructors mirror calls that receive no
control object at all, only the numeric arguments shown. -/
inductive Started where
  | noScan
  | day (visualOnly : Bool) (withControl : Bool)
  | towers30d (days limit : Nat)
  | towersQuick (blockLimit perType : Nat)
deriving DecidableEq

/-- The observable outcome of one message dispatch: the state of the
activeStreams entry for this connection after the dispatch (none when no
entry is installed; some flag when a control with that stop value is
installed), whether the previously installed control had its stop flag
set, and which scan was started. -/
structure HandlerOut where
  newState : Option Bool
  prevFlagSet : Bool
  started : Started
deriving DecidableEq

/-- server.js lines 397-461: the dispatch on parsed.type.  st is the
stop flag of the control currently installed for the connection (none
when the map has no entry for it).  The two day branches stop the old
control and install a fresh one (stop = false); the two tower branches
stop the old control, DELETE the map entry and start the scan without
any control; any other type falls through the if chain with no effect. -/
def wsOnMessageParsed (st : Option Bool) (m : ParsedMsg) : HandlerOut :=
  if m.type = some "get_day" then
    { newState := some false, prevFlagSet := st.isSome, started := Started.day false true }
  else if m.type = some "get_day_visual" then
    { newState := some false, prevFlagSet := st.isSome, started := Started.day true true }
  else if m.type = some "get_towers_recent_30d" then
    { newState := none, prevFlagSet := st.isSome,
      started := Started.towers30d 30 (limit30 m) }
  else if m.type = some "get_towers_quick" then
    { newState := none, prevFlagSet := st.isSome,
      started := Started.towersQuick (quickBlockLimit m) (quickPerType m) }
  else { newState := st, prevFlagSet := false, started := Started.noScan }

/-- The outcome of the whole message listener. -/
inductive HandlerOutcome where
  | ok (out : HandlerOut)
  | threw
deriving DecidableEq

/-- What JSON.parse at server.js line 395 does with the raw message.
object covers every parsed value on which reading the type property
succeeds: JSON objects, and also arrays and primitives, whose property
reads yield undefined (all-none fields).  nullValue is the body null,
which JSON.parse accepts and returns as null.  parseError is a body that
is not valid JSON, on which JSON.parse throws. -/
inductive ParseResult where
  | object (m : ParsedMsg)
  | nullValue
  | parseError
deriving DecidableEq

/-- server.js lines 393-462: the message listener.  No try/catch appears
anywhere in the listener, so both throwing paths escape it: line 395,
where JSON.parse throws on a body that is not valid JSON, and line 397,
where reading parsed.type throws a TypeError when JSON.parse returned
null.  Every other parse result reaches the dispatch. -/
def wsOnMessage (st : Option Bool) (parsed : ParseResult) : HandlerOutcome :=
  match parsed with
  | ParseResult.parseError => HandlerOutcome.threw
  | ParseResult.nullValue => HandlerOutcome.threw
  | ParseResult.object m => HandlerOutcome.ok (wsOnMessageParsed st m)

/-- All five buckets are within the capacity limit. -/
def bucketsBounded (b : Buckets) (limit : Nat) : Prop :=
  b.image.length ≤ limit ∧ b.video.length ≤ limit ∧ b.audio.length ≤ limit ∧
    b.application.length ≤ limit ∧ b.other.length ≤ limit

/-- Every bucket snapshot carried by a message is within the limit. -/
def msgBucketsBounded (limit : Nat) : ServerMsg → Prop
  | .towersProgress b => bucketsBounded b limit
  | .towersFinal b => bucketsBounded b limit
  | _ => True

/-- Fixture: a day-scan environment whose session control already has its
stop flag set at every checkpoint, all heights readable, no records. -/
def envStopped : DayEnv :=
  { bf := fun _ => some 50, txs := fun _ => [], wsOpenAt := fun _ => true,
    stopAt := fun _ => true }

/-- Fixture: a healthy day-scan environment where the timestamp of each
block equals its height, every height is readable, the connection stays
open and the scan is never cancelled. -/
def envDay : DayEnv :=
  { bf := fun hh => some hh, txs := fun _ => [], wsOpenAt := fun _ => true,
    stopAt := fun _ => false }

/-- Fixture: a get_towers_quick client message. -/
def quickReqMsg : ParsedMsg :=
  { type := some "get_towers_quick", date := none, start := none, endF := none,
    perTypeLimit := some "300", blockScanLimit := some "1000" }

/-- Fixture: a get_towers_recent_30d client message. -/
def towers30Msg : ParsedMsg :=
  { type := some "get_towers_recent_30d", date := none, start := none,
    endF := none, perTypeLimit := some "100", blockScanLimit := none }

/-- Fixture: a get_day client message. -/
def dayReqMsg : ParsedMsg :=
  { type := some "get_day", date := some "2024-01-01", start := none,
    endF := none, perTypeLimit := none, blockScanLimit := none }

/-- Fixture: a well-formed message of an unknown type. -/
def pingMsg : ParsedMsg :=
  { type := some "ping", date := none, start := none, endF := none,
    perTypeLimit := none, blockScanLimit := none }

/-- Fixture: an audio transaction node. -/
def audioNode : TxNode :=
  { id := "a", dataSize := 1,
    tags := [{ name := "Content-Type", value := "audio/mpeg" }],
    blockTimestamp := none }

/-- Fixture: every block timestamp is ten times its height. -/
def bfTen : Nat → Option Nat := fun hh => some (hh * 10)

/-- Fixture: every height holds exactly one audio transaction. -/
def txsAudio : Nat → List TxNode := fun _ => [audioNode]

/-- Fixture: the connection stays open. -/
def openAlways : Nat → Bool := fun _ => true

/-- Fixture: an arbitrary record. -/
def dummyRec : MediaRecord :=
  { id := "d", data_size := 0, tags := [], height := 0, timestamp := 0 }

/-- Fixture: an image transaction whose owning block timestamp 1000 lies
far before any recent 30-day window. -/
def oldImageNode : TxNode :=
  { id := "oldtx", dataSize := 5,
    tags := [{ name := "Content-Type", value := "image/png" }],
    blockTimestamp := some 1000 }

/-- Fixture: a node whose remote answer carries only a block timestamp
(the tagged media query never requests the block height). -/
def tsOnlyNode : TxNode :=
  { id := "t", dataSize := 1, tags := [], blockTimestamp := some 1700000000 }

theorem fetchLoop_eq_fail (resp : Nat → PageResp) (fb : Option (List TxNode))
    (n a : Nat) (hre : resp a = PageResp.fail) :
    fetchLoop resp fb (n + 1) a =
      (fb.getD [], [ReqLog.paged 100 true, ReqLog.fallback 100]) := by
  cases fb <;> simp [fetchLoop, hre, Option.getD]

theorem fetchLoop_eq_noPage (resp : Nat → PageResp) (fb : Option (List TxNode))
    (n a : Nat) (hre : resp a = PageResp.noPage) :
    fetchLoop resp fb (n + 1) a = ([], [ReqLog.paged 100 false]) := by
  simp [fetchLoop, hre]

theorem fetchLoop_eq_ok_true (resp : Nat → PageResp) (fb : Option (List TxNode))
    (n a : Nat) (es : List TxNode) (hre : resp a = PageResp.ok es true) :
    fetchLoop resp fb (n + 1) a =
      (es ++ (fetchLoop resp fb n (a + 1)).1,
        ReqLog.paged 100 false :: (fetchLoop resp fb n (a + 1)).2) := by
  simp [fetchLoop, hre]

theorem fetchLoop_eq_ok_false (resp : Nat → PageResp) (fb : Option (List TxNode))
    (n a : Nat) (es : List TxNode) (hre : resp a = PageResp.ok es false) :
    fetchLoop resp fb (n + 1) a = (es, [ReqLog.paged 100 false]) := by
  simp [fetchLoop, hre]

theorem fetchLoop_paged_le (resp : Nat → PageResp) (fb : Option (List TxNode)) :
    ∀ fuel attempts, (fetchLoop resp fb fuel attempts).2.countP ReqLog.isPaged ≤ fuel := by
  intro fuel
  induction fuel with
  | zero => intro a; simp [fetchLoop]
  | succ n ih =>
    intro a
    cases hre : resp a with
    | fail =>
      rw [fetchLoop_eq_fail resp fb n a hre]
      simp [List.countP_cons, ReqLog.isPaged, ReqLog.isFallback]
    | noPage =>
      rw [fetchLoop_eq_noPage resp fb n a hre]
      simp [List.countP_cons, ReqLog.isPaged]
    | ok es hnp =>
      cases hnp with
      | true =>
        rw [fetchLoop_eq_ok_true resp fb n a es hre]
        have h2 := ih (a + 1)
        simp [List.countP_cons, ReqLog.isPaged]
        omega
      | false =>
        rw [fetchLoop_eq_ok_false resp fb n a es hre]
        simp [List.countP_cons, ReqLog.isPaged]

theorem fetchLoop_fallback_count (resp : Nat → PageResp) (fb : Option (List TxNode)) :
    ∀ fuel attempts,
      (fetchLoop resp fb fuel attempts).2.countP ReqLog.isFallback =
        (if (fetchLoop resp fb fuel attempts).2.any ReqLog.isFailedPage then 1 else 0) := by
  intro fuel
  induction fuel with
  | zero => intro a; simp [fetchLoop]
  | succ n ih =>
    intro a
    cases hre : resp a with
    | fail =>
      rw [fetchLoop_eq_fail resp fb n a hre]
      simp [List.countP_cons, ReqLog.isFallback, ReqLog.isFailedPage]
    | noPage =>
      rw [fetchLoop_eq_noPage resp fb n a hre]
      simp [List.countP_cons, ReqLog.isFallback, ReqLog.isFailedPage]
    | ok es hnp =>
      cases hnp with
      | true =>
        rw [fetchLoop_eq_ok_true resp fb n a es hre]
        have h2 := ih (a + 1)
        show (ReqLog.paged 100 false :: (fetchLoop resp fb n (a + 1)).2).countP
            ReqLog.isFallback =
          if (ReqLog.paged 100 false :: (fetchLoop resp fb n (a + 1)).2).any
              ReqLog.isFailedPage then 1 else 0
        rw [List.countP_cons, List.any_cons]
        simpa [ReqLog.isFallback, ReqLog.isFailedPage] using h2
      | false =>
        rw [fetchLoop_eq_ok_false resp fb n a es hre]
        simp [List.countP_cons, ReqLog.isFallback, ReqLog.isFailedPage]

theorem fetchLoop_fallback_last (resp : Nat → PageResp) (fb : Option (List TxNode)) :
    ∀ fuel attempts,
      (fetchLoop resp fb fuel attempts).2.any ReqLog.isFailedPage = true →
      (fetchLoop resp fb fuel attempts).2.getLast? = some (ReqLog.fallback 100) := by
  intro fuel
  induction fuel with
  | zero => intro a h; simp [fetchLoop] at h
  | succ n ih =>
    intro a h
    cases hre : resp a with
    | fail => rw [fetchLoop_eq_fail resp fb n a hre]; rfl
    | noPage =>
      rw [fetchLoop_eq_noPage resp fb n a hre] at h
      simp [ReqLog.isFailedPage] at h
    | ok es hnp =>
      cases hnp with
      | true =>
        rw [fetchLoop_eq_ok_true resp fb n a es hre] at h ⊢
        have h3 : (fetchLoop resp fb n (a + 1)).2.any ReqLog.isFailedPage = true := by
          rw [List.any_cons] at h
          simpa [ReqLog.isFailedPage] using h
        have h2 := ih (a + 1) h3
        show (ReqLog.paged 100 false :: (fetchLoop resp fb n (a + 1)).2).getLast? =
          some (ReqLog.fallback 100)
        cases hl : (fetchLoop resp fb n (a + 1)).2 with
        | nil => rw [hl] at h2; simp at h2
        | cons x t =>
          rw [hl] at h2
          rw [List.getLast?_cons_cons]
          exact h2
      | false =>
        rw [fetchLoop_eq_ok_false resp fb n a es hre] at h
        simp [ReqLog.isFailedPage] at h

theorem fetchLoop_cap (resp : Nat → PageResp) (fb : Option (List TxNode)) :
    ∀ fuel attempts, ∀ r ∈ (fetchLoop resp fb fuel attempts).2, r.cap = 100 := by
  intro fuel
  induction fuel with
  | zero => intro a r hr; simp [fetchLoop] at hr
  | succ n ih =>
    intro a r hr
    cases hre : resp a with
    | fail =>
      rw [fetchLoop_eq_fail resp fb n a hre] at hr
      simp only [List.mem_cons, List.not_mem_nil, or_false] at hr
      rcases hr with rfl | rfl <;> rfl
    | noPage =>
      rw [fetchLoop_eq_noPage resp fb n a hre] at hr
      simp only [List.mem_cons, List.not_mem_nil, or_false] at hr
      rw [hr]
      rfl
    | ok es hnp =>
      cases hnp with
      | true =>
        rw [fetchLoop_eq_ok_true resp fb n a es hre] at hr
        rw [List.mem_cons] at hr
        rcases hr with rfl | hr
        · rfl
        · exact ih (a + 1) r hr
      | false =>
        rw [fetchLoop_eq_ok_false resp fb n a es hre] at hr
        simp only [List.mem_cons, List.not_mem_nil, or_false] at hr
        rw [hr]
        rfl

/-- C1: the code evaluated at a failing input.  With the scan started at
now = 1760000000000 ms and days = 30, the window start is
mediaStartTs = 1757407999... s, yet a record whose owning block has
timestamp 1000 (far before the window) is offered into the image bucket
and reaches the final towers snapshot: the tag-filtered query result is
consumed with no time filter at all (startTs is computed at server.js
line 165 and never used). -/
theorem c1_windowNotEnforced_eval :
    1000 + 1 ≤ mediaStartTs 1760000000000 30 ∧
      streamMediaTransactions 1760000000000 30 5
          [some { edges := [oldImageNode], hasNextPage := false }] [] [] =
        [ServerMsg.loadingStatus "Searching for media transactions",
          ServerMsg.towersFinal
            { image := [{ id := "oldtx", data_size := 5,
                          tags := [("Content-Type", "image/png")],
                          height := 1000, timestamp := 1000 }],
              video := [], audio := [], application := [], other := [] }] := by
  constructor
  · decide
  · decide

/-- C2 counterexample: a DayRangeScan whose cancellation flag is already
set at every checkpoint (set before any in-flight call) still emits four
messages, among them dayStreamComplete, so a cancelled scan does emit
further messages to the connection. -/
theorem c2_cancelledScan_counterexample :
    envStopped.stopAt 0 = true ∧
      streamBlocksForDay envStopped 0 (some 5) 100 false 10 =
        some ([ServerMsg.loadingStatus "Finding start block for date",
          ServerMsg.loadingStatus "Finding start block for the day",
          ServerMsg.loadingStatus "Streaming blocks for date",
          ServerMsg.dayStreamComplete], false) := by
  constructor
  · rfl
  · decide

/-- C2 amended: once the cancellation flag of a day scan is observed set
at a loop checkpoint, the loop emits nothing further (though the scan
still sends its post-loop dayStreamComplete, and the pre-loop status
messages are unconditional); and the two tower branches of the message
handler delete the activeStreams entry and start their scans without any
control object (the Started value carries only the numeric arguments of
the call), so a subsequent request finds no flag to set: after a tower
scan starts, a get_day request sets no previous flag while the tower
scan may still be running. -/
theorem c2_cancellation_amended :
    (∀ (env : DayEnv) (endTs : Nat) (vis : Bool) (fuel hh step : Nat) (vsent : Bool),
        env.stopAt step = true →
        dayLoop env endTs vis (fuel + 1) hh step vsent = some ([], vsent)) ∧
      (∀ (st : Option Bool) (m : ParsedMsg), m.type = some "get_towers_quick" →
        (wsOnMessageParsed st m).newState = none ∧
          (wsOnMessageParsed st m).started =
            Started.towersQuick (quickBlockLimit m) (quickPerType m)) ∧
      (∀ (st : Option Bool) (m : ParsedMsg), m.type = some "get_towers_recent_30d" →
        (wsOnMessageParsed st m).newState = none ∧
          (wsOnMessageParsed st m).started = Started.towers30d 30 (limit30 m)) ∧
      (∀ m : ParsedMsg, m.type = some "get_day" →
        (wsOnMessageParsed none m).prevFlagSet = false ∧
          (wsOnMessageParsed none m).newState = some false) := by
  refine ⟨?_, ?_, ?_, ?_⟩
  · intro env endTs vis fuel hh step vsent hstop
    simp [dayLoop, hstop]
  · intro st m hty
    simp [wsOnMessageParsed, hty]
  · intro st m hty
    simp [wsOnMessageParsed, hty]
  · intro m hty
    simp [wsOnMessageParsed, hty]

/-- C2 witness: the amended statement applied at concrete inputs. -/
theorem c2_cancellation_witness :
    dayLoop envStopped 100 false 5 7 3 false = some ([], false) ∧
      (wsOnMessageParsed (some false) quickReqMsg).newState = none ∧
      (wsOnMessageParsed (some false) towers30Msg).newState = none ∧
      (wsOnMessageParsed none dayReqMsg).prevFlagSet = false := by
  refine ⟨?_, ?_, ?_, ?_⟩
  · exact c2_cancellation_amended.1 envStopped 100 false 4 7 3 false rfl
  · exact (c2_cancellation_amended.2.1 (some false) quickReqMsg rfl).1
  · exact (c2_cancellation_amended.2.2.1 (some false) towers30Msg rfl).1
  · exact (c2_cancellation_amended.2.2.2 dayReqMsg rfl).1

/-- C7 counterexample: a record whose Content-Type tag value is
application/pdf is classified as other, not application, by the
TaggedForwardScan classifier, while the QuickBackwardScan classifier
maps it to application — so the single fixed table the claim states does
not hold for every scan strategy. -/
theorem c7_classifier_counterexample :
    keyMedia (collapseTags [{ name := "Content-Type", value := "application/pdf" }]) =
        "other" ∧
      keyQuick (collapseTags [{ name := "Content-Type", value := "application/pdf" }]) =
        "application" ∧
      ("other" : String) ≠ "application" := by
  refine ⟨by decide, by decide, by decide⟩

/-- C8: the code evaluated at the failing input.  The record built by the
tagged media scan stores the owning block timestamp in its height field
(the query does not even request the block height), while the record
built by the quick scan stores the scanned height, as the claim states. -/
theorem c8_recordHeight_eval :
    (mediaRecord tsOnlyNode).height = 1700000000 ∧
      (mediaRecord tsOnlyNode).timestamp = 1700000000 ∧
      (quickRecord 1300000 1700000000 tsOnlyNode).height = 1300000 := by
  refine ⟨rfl, rfl, rfl⟩

/-- C9 counterexample: the message listener is not total.  A raw message
that is not valid JSON makes JSON.parse throw at server.js line 395, and
the message body null parses successfully yet reading parsed.type at
line 397 throws a TypeError; neither throw is caught anywhere in the
listener, so in both cases the exception escapes the handler. -/
theorem c9_parseThrow_counterexample :
    wsOnMessage none ParseResult.parseError = HandlerOutcome.threw ∧
      wsOnMessage none ParseResult.nullValue = HandlerOutcome.threw :=
  ⟨rfl, rfl⟩

/-- C9 amended: for every message that parses to a JSON value other than
null — an object, and also an array or primitive, whose property reads
yield undefined — the listener completes without an escaping exception
and performs the dispatch; a message that is not valid JSON makes
JSON.parse throw at line 395, and the body null parses but makes the
type read at line 397 throw, and both exceptions escape the listener. -/
theorem c9_handlerTotality_amended :
    (∀ (st : Option Bool) (m : ParsedMsg),
        wsOnMessage st (ParseResult.object m) =
          HandlerOutcome.ok (wsOnMessageParsed st m)) ∧
      (∀ st : Option Bool,
        wsOnMessage st ParseResult.nullValue = HandlerOutcome.threw) ∧
      (∀ st : Option Bool,
        wsOnMessage st ParseResult.parseError = HandlerOutcome.threw) :=
  ⟨fun _ _ => rfl, fun _ => rfl, fun _ => rfl⟩

/-- C10: a well-formed client message whose type is none of the four
request types falls through the whole if/else chain of the listener: no
scan is started (hence nothing is ever emitted for it), the previous
control is not stopped, and the activeStreams entry is left unchanged. -/
theorem c10_unknownType_frame (st : Option Bool) (m : ParsedMsg)
    (h1 : m.type ≠ some "get_day") (h2 : m.type ≠ some "get_day_visual")
    (h3 : m.type ≠ some "get_towers_recent_30d")
    (h4 : m.type ≠ some "get_towers_quick") :
    wsOnMessageParsed st m =
      { newState := st, prevFlagSet := false, started := Started.noScan } := by
  rw [wsOnMessageParsed, if_neg h1, if_neg h2, if_neg h3, if_neg h4]

/-- C10 witness: the frame theorem applied to a concrete unknown-type
message with a control installed. -/
theorem c10_unknownType_witness :
    wsOnMessageParsed (some false) pingMsg =
      { newState := some false, prevFlagSet := false, started := Started.noScan } :=
  c10_unknownType_frame (some false) pingMsg (by decide) (by decide) (by decide)
    (by decide)

theorem bucketsBounded_empty (limit : Nat) : bucketsBounded emptyBuckets limit := by
  simp [bucketsBounded, emptyBuckets]

theorem bucketOffer_bounded (limit : Nat) (b : Buckets) (k : String) (r : MediaRecord)
    (hb : bucketsBounded b limit) : bucketsBounded (bucketOffer limit b k r) limit := by
  obtain ⟨h1, h2, h3, h4, h5⟩ := hb
  unfold bucketOffer Buckets.push Buckets.get
  split_ifs <;> simp_all [bucketsBounded, List.length_append] <;> try omega

theorem processEdgesQuick_bounded (limit h ts : Nat) :
    ∀ (es : List TxNode) (b : Buckets) (p : Nat), bucketsBounded b limit →
      bucketsBounded (processEdgesQuick limit h ts es b p).1 limit := by
  intro es
  induction es with
  | nil => intro b p hb; simpa [processEdgesQuick] using hb
  | cons n rest ih =>
    intro b p hb
    by_cases hw : wantMore b limit = false
    · simpa [processEdgesQuick, hw] using hb
    · simp only [processEdgesQuick, if_neg hw]
      exact ih _ _ (bucketOffer_bounded _ _ _ _ hb)

theorem mediaProcessEdges_bounded (limit : Nat) :
    ∀ (es : List TxNode) (b : Buckets) (p : Nat), bucketsBounded b limit →
      bucketsBounded (mediaProcessEdges limit es b p).1 limit := by
  intro es
  induction es with
  | nil => intro b p hb; simpa [mediaProcessEdges] using hb
  | cons n rest ih =>
    intro b p hb
    simp only [mediaProcessEdges]
    exact ih _ _ (bucketOffer_bounded _ _ _ _ hb)

theorem quickLoop_bounded (bf : Nat → Option Nat) (txs : Nat → List TxNode)
    (wopen : Nat → Bool) (limit : Nat) :
    ∀ (rem h scanned : Nat) (b : Buckets) (adds : Nat), bucketsBounded b limit →
      (∀ m ∈ (quickLoop bf txs wopen limit rem h scanned b adds).1,
          msgBucketsBounded limit m) ∧
        bucketsBounded (quickLoop bf txs wopen limit rem h scanned b adds).2 limit := by
  intro rem
  induction rem with
  | zero =>
    intro h scanned b adds hb
    refine ⟨?_, by simpa [quickLoop] using hb⟩
    intro m hm
    simp [quickLoop] at hm
  | succ n ih =>
    intro h scanned b adds hb
    by_cases hh : h = 0
    · refine ⟨?_, by simpa [quickLoop, hh] using hb⟩
      intro m hm
      simp [quickLoop, hh] at hm
    · by_cases hw : wopen scanned = false
      · refine ⟨?_, by simpa [quickLoop, hh, hw] using hb⟩
        intro m hm
        simp [quickLoop, hh, hw] at hm
      · cases hbf : bf h with
        | none =>
          have hr := ih (h - 1) (scanned + 1) b adds hb
          constructor
          · intro m hm
            rw [show quickLoop bf txs wopen limit (n + 1) h scanned b adds =
              quickLoop bf txs wopen limit n (h - 1) (scanned + 1) b adds by
                simp [quickLoop, hh, hw, hbf]] at hm
            exact hr.1 m hm
          · rw [show quickLoop bf txs wopen limit (n + 1) h scanned b adds =
              quickLoop bf txs wopen limit n (h - 1) (scanned + 1) b adds by
                simp [quickLoop, hh, hw, hbf]]
            exact hr.2
        | some ts =>
          have hb2 : bucketsBounded (processEdgesQuick limit h ts (txs h) b 0).1 limit :=
            processEdgesQuick_bounded limit h ts (txs h) b 0 hb
          by_cases hc : scanned + 1 = 1 ∨ (scanned + 1) % 25 = 0 ∨
              20 ≤ adds + (processEdgesQuick limit h ts (txs h) b 0).2
          · have heq : quickLoop bf txs wopen limit (n + 1) h scanned b adds =
                (ServerMsg.loadingStatus "Quick scanned progress" ::
                  ServerMsg.towersProgress (processEdgesQuick limit h ts (txs h) b 0).1 ::
                  (quickLoop bf txs wopen limit n (h - 1) (scanned + 1)
                    (processEdgesQuick limit h ts (txs h) b 0).1 0).1,
                  (quickLoop bf txs wopen limit n (h - 1) (scanned + 1)
                    (processEdgesQuick limit h ts (txs h) b 0).1 0).2) := by
              simp only [quickLoop, hbf]
              rw [if_neg hh, if_neg hw, if_pos hc]
            have hr := ih (h - 1) (scanned + 1)
              (processEdgesQuick limit h ts (txs h) b 0).1 0 hb2
            rw [heq]
            constructor
            · intro m hm
              rcases List.mem_cons.mp hm with rfl | hm2
              · simp [msgBucketsBounded]
              · rcases List.mem_cons.mp hm2 with rfl | hm3
                · simpa [msgBucketsBounded] using hb2
                · exact hr.1 m hm3
            · exact hr.2
          · have heq : quickLoop bf txs wopen limit (n + 1) h scanned b adds =
                quickLoop bf txs wopen limit n (h - 1) (scanned + 1)
                  (processEdgesQuick limit h ts (txs h) b 0).1
                  (adds + (processEdgesQuick limit h ts (txs h) b 0).2) := by
              simp only [quickLoop, hbf]
              rw [if_neg hh, if_neg hw, if_neg hc]
            rw [heq]
            exact ih (h - 1) (scanned + 1)
              (processEdgesQuick limit h ts (txs h) b 0).1
              (adds + (processEdgesQuick limit h ts (txs h) b 0).2) hb2

theorem mediaLoop_bounded (limit : Nat) :
    ∀ (resps : List (Option Page)) (b : Buckets) (adds : Nat), bucketsBounded b limit →
      (∀ m ∈ (mediaLoop limit resps b adds).1, msgBucketsBounded limit m) ∧
        bucketsBounded (mediaLoop limit resps b adds).2.1 limit := by
  intro resps
  induction resps with
  | nil =>
    intro b adds hb
    refine ⟨?_, by simpa [mediaLoop] using hb⟩
    intro m hm
    simp [mediaLoop] at hm
  | cons rsp rest ih =>
    intro b adds hb
    cases rsp with
    | none =>
      refine ⟨?_, by by_cases hw : wantMore b limit = false <;>
        simpa [mediaLoop, hw] using hb⟩
      intro m hm
      by_cases hw : wantMore b limit = false <;> simp [mediaLoop, hw] at hm
    | some pg =>
      by_cases hw : wantMore b limit = false
      · refine ⟨?_, by simpa [mediaLoop, hw] using hb⟩
        intro m hm
        simp [mediaLoop, hw] at hm
      · have hb2 : bucketsBounded (mediaProcessEdges limit pg.edges b 0).1 limit :=
          mediaProcessEdges_bounded limit pg.edges b 0 hb
        by_cases hnp : pg.hasNextPage = true
        · by_cases hc : 20 ≤ adds + (mediaProcessEdges limit pg.edges b 0).2
          · have heq : mediaLoop limit (some pg :: rest) b adds =
                (ServerMsg.towersProgress (mediaProcessEdges limit pg.edges b 0).1 ::
                  (mediaLoop limit rest (mediaProcessEdges limit pg.edges b 0).1 0).1,
                  (mediaLoop limit rest (mediaProcessEdges limit pg.edges b 0).1 0).2) := by
              simp [mediaLoop, hw, hnp, hc]
            have hr := ih (mediaProcessEdges limit pg.edges b 0).1 0 hb2
            rw [heq]
            constructor
            · intro m hm
              rcases List.mem_cons.mp hm with rfl | hm2
              · simpa [msgBucketsBounded] using hb2
              · exact hr.1 m hm2
            · exact hr.2
          · have heq : mediaLoop limit (some pg :: rest) b adds =
                ((mediaLoop limit rest (mediaProcessEdges limit pg.edges b 0).1
                    (adds + (mediaProcessEdges limit pg.edges b 0).2)).1,
                  (mediaLoop limit rest (mediaProcessEdges limit pg.edges b 0).1
                    (adds + (mediaProcessEdges limit pg.edges b 0).2)).2) := by
              simp [mediaLoop, hw, hnp, hc]
            have hr := ih (mediaProcessEdges limit pg.edges b 0).1
              (adds + (mediaProcessEdges limit pg.edges b 0).2) hb2
            rw [heq]
            exact hr
        · by_cases hc : 20 ≤ adds + (mediaProcessEdges limit pg.edges b 0).2
          · have heq : mediaLoop limit (some pg :: rest) b adds =
                ([ServerMsg.towersProgress (mediaProcessEdges limit pg.edges b 0).1],
                  (mediaProcessEdges limit pg.edges b 0).1, 0) := by
              simp [mediaLoop, hw, hnp, hc]
            rw [heq]
            refine ⟨?_, hb2⟩
            intro m hm
            rcases List.mem_cons.mp hm with rfl | hm2
            · simpa [msgBucketsBounded] using hb2
            · simp at hm2
          · have heq : mediaLoop limit (some pg :: rest) b adds =
                ([], (mediaProcessEdges limit pg.edges b 0).1,
                  adds + (mediaProcessEdges limit pg.edges b 0).2) := by
              simp [mediaLoop, hw, hnp, hc]
            rw [heq]
            refine ⟨?_, hb2⟩
            intro m hm
            simp at hm

/-- C6: for every pattern of remote responses (resp) and every fallback
outcome (fb), fetchAllBlockTransactions returns a plain pair of
accumulated edges and request log — by its type it never propagates an
error to the caller; it issues at most 10 paginated requests; it issues
a fallback request exactly when some paginated request failed, and then
exactly one, as the very last request before returning; and every
request it issues (paginated or fallback) carries the fixed first-100
cap. -/
theorem c6_pageFetcher_props (resp : Nat → PageResp) (fb : Option (List TxNode)) :
    (fetchAllBlockTransactions resp fb).2.countP ReqLog.isPaged ≤ 10 ∧
      ((fetchAllBlockTransactions resp fb).2.countP ReqLog.isFallback =
        if (fetchAllBlockTransactions resp fb).2.any ReqLog.isFailedPage then 1 else 0) ∧
      ((fetchAllBlockTransactions resp fb).2.any ReqLog.isFailedPage = true →
        (fetchAllBlockTransactions resp fb).2.getLast? = some (ReqLog.fallback 100)) ∧
      (∀ r ∈ (fetchAllBlockTransactions resp fb).2, r.cap = 100) :=
  ⟨fetchLoop_paged_le resp fb 10 0, fetchLoop_fallback_count resp fb 10 0,
    fetchLoop_fallback_last resp fb 10 0, fetchLoop_cap resp fb 10 0⟩

/-- C5: for every scan run of QuickBackwardScan and of TaggedForwardScan,
every bucket snapshot carried by an emitted message — every towers_partial
and the final towers, hence also the state at completion — has all five
category buckets within the configured per-category limit; and offering a
record to a category whose bucket is at capacity leaves the buckets
unchanged (the record is dropped, nothing is evicted). -/
theorem c5_bucketCapacity (limit : Nat) :
    (∀ (bf : Nat → Option Nat) (txs : Nat → List TxNode) (wopen : Nat → Bool)
        (info : Option Nat) (bsl : Nat),
        ∀ m ∈ streamRecentTransactionsQuick bf txs wopen info bsl limit,
          msgBucketsBounded limit m) ∧
      (∀ (nowMs days : Nat) (pI pV pA : List (Option Page)),
        ∀ m ∈ streamMediaTransactions nowMs days limit pI pV pA,
          msgBucketsBounded limit m) ∧
      (∀ (b : Buckets) (k : String) (r : MediaRecord),
        limit ≤ (Buckets.get b k).length → bucketOffer limit b k r = b) := by
  refine ⟨?_, ?_, ?_⟩
  · intro bf txs wopen info bsl m hm
    cases info with
    | none =>
      simp only [streamRecentTransactionsQuick, List.mem_singleton] at hm
      simp [hm, msgBucketsBounded]
    | some height =>
      have h0 := quickLoop_bounded bf txs wopen limit (max 10 (min 20000 bsl))
        height 0 emptyBuckets 0 (bucketsBounded_empty limit)
      simp only [streamRecentTransactionsQuick] at hm
      rcases List.mem_append.mp hm with hm1 | hm2
      · exact h0.1 m hm1
      · rcases List.mem_cons.mp hm2 with rfl | hm3
        · simpa [msgBucketsBounded] using h0.2
        · rcases List.mem_cons.mp hm3 with rfl | hm4
          · simp [msgBucketsBounded]
          · simp at hm4
  · intro nowMs days pI pV pA m hm
    have h1 := mediaLoop_bounded limit pI emptyBuckets 0 (bucketsBounded_empty limit)
    have h2 := mediaLoop_bounded limit pV (mediaLoop limit pI emptyBuckets 0).2.1
      (mediaLoop limit pI emptyBuckets 0).2.2 h1.2
    have h3 := mediaLoop_bounded limit pA
      (mediaLoop limit pV (mediaLoop limit pI emptyBuckets 0).2.1
        (mediaLoop limit pI emptyBuckets 0).2.2).2.1
      (mediaLoop limit pV (mediaLoop limit pI emptyBuckets 0).2.1
        (mediaLoop limit pI emptyBuckets 0).2.2).2.2 h2.2
    simp only [streamMediaTransactions] at hm
    rcases List.mem_cons.mp hm with rfl | hm1
    · simp [msgBucketsBounded]
    · rcases List.mem_append.mp hm1 with hm2 | hm2
      · rcases List.mem_append.mp hm2 with hm3 | hm3
        · rcases List.mem_append.mp hm3 with hm4 | hm4
          · exact h1.1 m hm4
          · exact h2.1 m hm4
        · exact h3.1 m hm3
      · rcases List.mem_singleton.mp hm2 with rfl
        simpa [msgBucketsBounded] using h3.2
  · intro b k r hcap
    unfold bucketOffer
    rw [if_neg]
    omega

/-- C5 witness: the capacity theorem applied to a quick scan with per-type
limit 2 over blocks that hold one audio record each (the first snapshot
message of the scan), and the no-eviction clause applied to a bucket at
capacity 0. -/
theorem c5_bucketCapacity_witness :
    msgBucketsBounded 2
        (ServerMsg.towersProgress
          { image := [], video := [],
            audio := [{ id := "a", data_size := 1,
                        tags := [("Content-Type", "audio/mpeg")],
                        height := 3, timestamp := 30 }],
            application := [], other := [] }) ∧
      bucketOffer 0 emptyBuckets "image" dummyRec = emptyBuckets := by
  constructor
  · exact (c5_bucketCapacity 2).1 bfTen txsAudio openAlways (some 3) 200 _ (by decide)
  · exact (c5_bucketCapacity 0).2.2 emptyBuckets "image" dummyRec (by decide)

/-- C6 witness: the fetcher properties applied to the environment where
every request throws: the first page request fails, one fallback is
issued and also fails, and the caller still receives a list. -/
theorem c6_pageFetcher_witness :
    fetchAllBlockTransactions (fun _ => PageResp.fail) none =
        ([], [ReqLog.paged 100 true, ReqLog.fallback 100]) ∧
      (fetchAllBlockTransactions (fun _ => PageResp.fail) none).2.getLast? =
        some (ReqLog.fallback 100) ∧
      (fetchAllBlockTransactions (fun _ => PageResp.fail) none).2.countP
        ReqLog.isPaged ≤ 10 := by
  refine ⟨by decide, ?_, ?_⟩
  · exact (c6_pageFetcher_props (fun _ => PageResp.fail) none).2.2.1 (by decide)
  · exact (c6_pageFetcher_props (fun _ => PageResp.fail) none).1

theorem dayPreMsgs_shape (info : Option Nat) :
    ∀ m ∈ dayPreMsgs info,
      (∃ s, m = ServerMsg.loadingStatus s) ∨ (∃ s, m = ServerMsg.errorMsg s) := by
  intro m hm
  cases info with
  | none =>
    simp only [dayPreMsgs, findStartMsgs, List.cons_append, List.nil_append,
      List.mem_cons, List.not_mem_nil, or_false] at hm
    rcases hm with rfl | rfl | rfl | rfl
    · exact Or.inl ⟨_, rfl⟩
    · exact Or.inl ⟨_, rfl⟩
    · exact Or.inr ⟨_, rfl⟩
    · exact Or.inl ⟨_, rfl⟩
  | some f =>
    simp only [dayPreMsgs, findStartMsgs, List.cons_append, List.nil_append,
      List.mem_cons, List.not_mem_nil, or_false] at hm
    rcases hm with rfl | rfl | rfl
    · exact Or.inl ⟨_, rfl⟩
    · exact Or.inl ⟨_, rfl⟩
    · exact Or.inl ⟨_, rfl⟩

theorem dayLoop_msgs (env : DayEnv) (endTs : Nat) (vis : Bool) :
    ∀ fuel h step vsent ms vb,
      dayLoop env endTs vis fuel h step vsent = some (ms, vb) →
      ∀ m ∈ ms, ∃ ts hh txs v, m = ServerMsg.newBlock ts hh txs v ∧ ts ≤ endTs := by
  intro fuel
  induction fuel with
  | zero => intro h step vsent ms vb hrun; simp [dayLoop] at hrun
  | succ n ih =>
    intro h step vsent ms vb hrun
    simp only [dayLoop] at hrun
    by_cases hcp : (!env.wsOpenAt step || env.stopAt step) = true
    · rw [if_pos hcp] at hrun
      simp only [Option.some.injEq, Prod.mk.injEq] at hrun
      obtain ⟨h1, _⟩ := hrun
      subst h1
      intro m hm
      simp at hm
    · rw [if_neg hcp] at hrun
      cases hbf : env.bf h with
      | none =>
        simp only [hbf] at hrun
        exact ih (h + 1) (step + 1) vsent ms vb hrun
      | some ts =>
        simp only [hbf] at hrun
        by_cases hts : endTs < ts
        · rw [if_pos hts] at hrun
          simp only [Option.some.injEq, Prod.mk.injEq] at hrun
          obtain ⟨h1, _⟩ := hrun
          subst h1
          intro m hm
          simp at hm
        · rw [if_neg hts] at hrun
          by_cases hv : (!vis || ((env.txs h).map dayTxOf).any dayTxVisual) = true
          · rw [if_pos hv] at hrun
            cases hrec : dayLoop env endTs vis n (h + 1) (step + 1)
                (if vis && ((env.txs h).map dayTxOf).any dayTxVisual then true
                 else vsent) with
            | none => rw [hrec] at hrun; simp at hrun
            | some r =>
              rw [hrec] at hrun
              simp only [Option.some.injEq, Prod.mk.injEq] at hrun
              obtain ⟨h1, _⟩ := hrun
              subst h1
              intro m hm
              rcases List.mem_cons.mp hm with rfl | hm2
              · exact ⟨ts, h, _, _, rfl, by omega⟩
              · exact ih _ _ _ _ _ hrec m hm2
          · rw [if_neg hv] at hrun
            exact ih _ _ _ _ _ hrun

/-- C4: whenever a non-visual DayRangeScan run terminates (the fueled loop
returns some trace), its message trace contains dayStreamComplete exactly
once, dayStreamComplete is the very last message (so it comes after every
emitted block), and every emitted newBlock carries a timestamp within the
end-time bound — the first block past the bound is never emitted, the
scan stops there; a visual-only run emits no dayStreamComplete from the
scan itself. -/
theorem c4_dayRangeScan_emissions (env : DayEnv) (target : Nat) (info : Option Nat)
    (endTs fuel : Nat) :
    (∀ ms vb, streamBlocksForDay env target info endTs false fuel = some (ms, vb) →
      ms.countP ServerMsg.isDayComplete = 1 ∧
        ms.getLast? = some ServerMsg.dayStreamComplete ∧
        ∀ ts hh txs v, ServerMsg.newBlock ts hh txs v ∈ ms → ts ≤ endTs) ∧
      (∀ ms vb, streamBlocksForDay env target info endTs true fuel = some (ms, vb) →
        ms.countP ServerMsg.isDayComplete = 0) := by
  have hpre0 : (dayPreMsgs info).countP ServerMsg.isDayComplete = 0 := by
    rw [List.countP_eq_zero]
    intro a ha
    rcases dayPreMsgs_shape info a ha with ⟨s, rfl⟩ | ⟨s, rfl⟩ <;>
      simp [ServerMsg.isDayComplete]
  constructor
  · intro ms vb hrun
    simp only [streamBlocksForDay] at hrun
    cases hrec : dayLoop env endTs false fuel
        (findStartHeightForDate env.bf target info) 0 false with
    | none => rw [hrec] at hrun; simp at hrun
    | some r =>
      rw [hrec] at hrun
      simp only [Bool.false_eq_true, if_false, Option.some.injEq,
        Prod.mk.injEq] at hrun
      obtain ⟨h1, _⟩ := hrun
      subst h1
      have hloop := dayLoop_msgs env endTs false fuel
        (findStartHeightForDate env.bf target info) 0 false r.1 r.2
        (by rw [hrec])
      have hloop0 : r.1.countP ServerMsg.isDayComplete = 0 := by
        rw [List.countP_eq_zero]
        intro a ha
        obtain ⟨ts, hh, txs, v, rfl, _⟩ := hloop a ha
        simp [ServerMsg.isDayComplete]
      refine ⟨?_, ?_, ?_⟩
      · rw [List.countP_append, List.countP_append, hpre0, hloop0]
        simp [ServerMsg.isDayComplete]
      · exact List.getLast?_concat _
      · intro ts hh txs v hmem
        rcases List.mem_append.mp hmem with hmem1 | hmem2
        · rcases List.mem_append.mp hmem1 with hmem3 | hmem4
          · rcases dayPreMsgs_shape info _ hmem3 with ⟨s, hs⟩ | ⟨s, hs⟩ <;>
              cases hs
          · obtain ⟨ts2, hh2, txs2, v2, heq, hle⟩ := hloop _ hmem4
            injection heq with e1 e2 e3 e4
            subst e1
            exact hle
        · rcases List.mem_singleton.mp hmem2 with heq
          cases heq
  · intro ms vb hrun
    simp only [streamBlocksForDay] at hrun
    cases hrec : dayLoop env endTs true fuel
        (findStartHeightForDate env.bf target info) 0 false with
    | none => rw [hrec] at hrun; simp at hrun
    | some r =>
      rw [hrec] at hrun
      simp only [if_true, List.append_nil, Option.some.injEq, Prod.mk.injEq] at hrun
      obtain ⟨h1, _⟩ := hrun
      subst h1
      have hloop := dayLoop_msgs env endTs true fuel
        (findStartHeightForDate env.bf target info) 0 false r.1 r.2
        (by rw [hrec])
      have hloop0 : r.1.countP ServerMsg.isDayComplete = 0 := by
        rw [List.countP_eq_zero]
        intro a ha
        obtain ⟨ts, hh, txs, v, rfl, _⟩ := hloop a ha
        simp [ServerMsg.isDayComplete]
      rw [List.countP_append, hpre0, hloop0]

/-- C4 witness: the emission theorem applied to a terminating concrete
run (timestamps equal heights, end bound 2): blocks 0, 1, 2 are emitted
and the trace ends with a single dayStreamComplete. -/
theorem c4_dayRangeScan_witness :
    ([ServerMsg.loadingStatus "Finding start block for date",
        ServerMsg.loadingStatus "Finding start block for the day",
        ServerMsg.loadingStatus "Streaming blocks for date",
        ServerMsg.newBlock 0 0 [] false, ServerMsg.newBlock 1 1 [] false,
        ServerMsg.newBlock 2 2 [] false,
        ServerMsg.dayStreamComplete].countP ServerMsg.isDayComplete = 1) ∧
      ([ServerMsg.loadingStatus "Finding start block for date",
        ServerMsg.loadingStatus "Finding start block for the day",
        ServerMsg.loadingStatus "Streaming blocks for date",
        ServerMsg.newBlock 0 0 [] false, ServerMsg.newBlock 1 1 [] false,
        ServerMsg.newBlock 2 2 [] false,
        ServerMsg.dayStreamComplete].getLast? =
        some ServerMsg.dayStreamComplete) := by
  have h := (c4_dayRangeScan_emissions envDay 0 (some 5) 2 10).1
    [ServerMsg.loadingStatus "Finding start block for date",
      ServerMsg.loadingStatus "Finding start block for the day",
      ServerMsg.loadingStatus "Streaming blocks for date",
      ServerMsg.newBlock 0 0 [] false, ServerMsg.newBlock 1 1 [] false,
      ServerMsg.newBlock 2 2 [] false,
      ServerMsg.dayStreamComplete] false (by decide)
  exact ⟨h.1, h.2.1⟩

theorem locLoop_spec (bf : Nat → Option Nat) (ts : Nat → Nat) (target frontier : Nat)
    (hbf : ∀ h, h ≤ frontier → bf h = some (ts h))
    (mono : ∀ i j, i ≤ j → j ≤ frontier → ts i ≤ ts j) :
    ∀ (n low hi1 : Nat) (cand : Option Nat),
      hi1 - low ≤ n → low ≤ hi1 → hi1 ≤ frontier + 1 →
      (∀ h, h < low → ts h < target) →
      (cand = none → hi1 = frontier + 1) →
      (∀ c, cand = some c → c = hi1 ∧ c ≤ frontier ∧ target ≤ ts c) →
      ((locLoop bf target n low hi1 cand = none ∧
          ∀ h, h ≤ frontier → ts h < target) ∨
        (∃ c, locLoop bf target n low hi1 cand = some c ∧ c ≤ frontier ∧
          target ≤ ts c ∧ ∀ h, h < c → ts h < target)) := by
  intro n
  induction n with
  | zero =>
    intro low hi1 cand hfuel hlh hhf hlow hnone hsome
    cases cand with
    | none =>
      left
      refine ⟨rfl, ?_⟩
      intro h hh
      have h2 := hnone rfl
      exact hlow h (by omega)
    | some c =>
      right
      obtain ⟨e1, e2, e3⟩ := hsome c rfl
      exact ⟨c, rfl, e2, e3, fun h hh => hlow h (by omega)⟩
  | succ n ih =>
    intro low hi1 cand hfuel hlh hhf hlow hnone hsome
    by_cases hlt : low < hi1
    · have hmid1 : low ≤ midOf low hi1 := Nat.le_add_right _ _
      have hmid2 : midOf low hi1 < hi1 := by
        have hd := Nat.div_le_self (hi1 - 1 - low) 2
        simp only [midOf]
        omega
      have hmidf : midOf low hi1 ≤ frontier := by omega
      have hbfm := hbf (midOf low hi1) hmidf
      have heq : locLoop bf target (n + 1) low hi1 cand =
          (if target ≤ ts (midOf low hi1) then
            locLoop bf target n low (midOf low hi1) (some (midOf low hi1))
          else locLoop bf target n (midOf low hi1 + 1) hi1 cand) := by
        simp only [locLoop, hbfm]
        rw [if_pos hlt]
      rw [heq]
      by_cases hcmp : target ≤ ts (midOf low hi1)
      · rw [if_pos hcmp]
        apply ih low (midOf low hi1) (some (midOf low hi1))
        · omega
        · exact hmid1
        · omega
        · exact hlow
        · intro hcn; cases hcn
        · intro c hc
          injection hc with hc
          subst hc
          exact ⟨rfl, hmidf, hcmp⟩
      · rw [if_neg hcmp]
        apply ih (midOf low hi1 + 1) hi1 cand
        · omega
        · omega
        · exact hhf
        · intro h hh
          have hm := mono h (midOf low hi1) (by omega) hmidf
          omega
        · exact hnone
        · exact hsome
    · have heq : locLoop bf target (n + 1) low hi1 cand = cand := by
        simp only [locLoop]
        rw [if_neg hlt]
      rw [heq]
      cases cand with
      | none =>
        left
        refine ⟨rfl, ?_⟩
        intro h hh
        have h2 := hnone rfl
        exact hlow h (by omega)
      | some c =>
        right
        obtain ⟨e1, e2, e3⟩ := hsome c rfl
        exact ⟨c, rfl, e2, e3, fun h hh => hlow h (by omega)⟩

/-- C3: over a monotonically non-decreasing timestamp sequence on
[0, frontier] with every height readable, findStartHeightForDate returns
the smallest height whose timestamp is at least the target (it is itself
a qualifying height that is below every other qualifying height), and
returns frontier + 1 when no height up to the frontier qualifies. -/
theorem c3_heightLocator_correct (ts : Nat → Nat) (target frontier : Nat)
    (mono : ∀ i j, i ≤ j → j ≤ frontier → ts i ≤ ts j) :
    (∀ h0, h0 ≤ frontier → target ≤ ts h0 →
      findStartHeightForDate (fun hh => some (ts hh)) target (some frontier) ≤ h0 ∧
        findStartHeightForDate (fun hh => some (ts hh)) target (some frontier) ≤
          frontier ∧
        target ≤
          ts (findStartHeightForDate (fun hh => some (ts hh)) target (some frontier))) ∧
      ((∀ h0, h0 ≤ frontier → ts h0 < target) →
        findStartHeightForDate (fun hh => some (ts hh)) target (some frontier) =
          frontier + 1) := by
  have hspec := locLoop_spec (fun hh => some (ts hh)) ts target frontier
    (fun _ _ => rfl) mono (frontier + 1) 0 (frontier + 1) none
    (by omega) (by omega) (le_refl _)
    (fun h hh => absurd hh (Nat.not_lt_zero h))
    (fun _ => rfl) (fun c hc => by cases hc)
  constructor
  · intro h0 hh0 hts0
    rcases hspec with ⟨_, hall⟩ | ⟨c, hc, hcf, hct, hleast⟩
    · exact absurd hts0 (by have := hall h0 hh0; omega)
    · have hr : findStartHeightForDate (fun hh => some (ts hh)) target
          (some frontier) = c := by
        simp only [findStartHeightForDate, hc]
      rw [hr]
      refine ⟨?_, hcf, hct⟩
      by_contra hgt
      push_neg at hgt
      have := hleast h0 (by omega)
      omega
  · intro hall
    rcases hspec with ⟨hnone, _⟩ | ⟨c, hc, hcf, hct, _⟩
    · simp only [findStartHeightForDate, hnone]
    · exact absurd hct (by have := hall c hcf; omega)

/-- C3 witness: with timestamps equal to heights, frontier 5 and target 3,
the locator returns height 3. -/
theorem c3_heightLocator_witness :
    findStartHeightForDate (fun hh => some hh) 3 (some 5) = 3 := by
  have h := c3_heightLocator_correct (fun hh => hh) 3 5 (fun i j hij _ => hij)
  have h2 := h.1 3 (by omega) (le_refl 3)
  have h3 : 3 ≤ findStartHeightForDate (fun hh => some hh) 3 (some 5) := h2.2.2
  have h4 : findStartHeightForDate (fun hh => some hh) 3 (some 5) ≤ 3 := h2.1
  omega

theorem takeWhile_append_slash (main sub : List Char) (hm : '/' ∉ main) :
    (main ++ '/' :: sub).takeWhile (fun c => c != '/') = main := by
  induction main with
  | nil => simp [List.takeWhile_cons]
  | cons a t ih =>
    have ha : a ≠ '/' := by
      intro he
      exact hm (he ▸ List.mem_cons_self a t)
    have hm2 : '/' ∉ t := fun hx => hm (List.mem_cons_of_mem a hx)
    have hb : (a != '/') = true := bne_iff_ne.mpr ha
    simp [List.takeWhile_cons, hb, ih hm2]

/-- C7 amended: each scan applies its own fixed table to the primary
token of the content type it reads.  QuickBackwardScan reads the
Content-Type tag with the content-type variant also accepted and maps
the primary token through the table with image, video, audio and
application; TaggedForwardScan reads only the exact-case Content-Type
tag and maps the primary token through the table with image, video and
audio only, so application (like any unrecognized token) classifies as
other there.  For both scans an absent or empty value classifies as
other. -/
theorem c7_classifier_amended :
    (∀ (main sub : List Char), '/' ∉ main →
      keyQuick [("Content-Type", String.mk (main ++ '/' :: sub))] =
          (if (["image", "video", "audio", "application"]).contains (String.mk main)
           then String.mk main else "other") ∧
        keyMedia [("Content-Type", String.mk (main ++ '/' :: sub))] =
          (if (["image", "video", "audio"]).contains (String.mk main)
           then String.mk main else "other")) ∧
      (∀ v : String,
        keyQuick [("content-type", v)] = keyQuick [("Content-Type", v)] ∧
          keyMedia [("content-type", v)] = "other") ∧
      (keyQuick [] = "other" ∧ keyMedia [] = "other" ∧
        keyQuick [("Content-Type", "")] = "other" ∧
        keyMedia [("Content-Type", "")] = "other") := by
  refine ⟨?_, ?_, by decide, by decide, by decide, by decide⟩
  · intro main sub hm
    have hdata : (String.mk (main ++ '/' :: sub)).toList = main ++ '/' :: sub := rfl
    have hne : ¬(String.mk (main ++ '/' :: sub) = "") := by
      intro he
      have h2 : main ++ '/' :: sub = ("" : String).toList := congrArg String.toList he
      simp at h2
    have hget : assocGet [("Content-Type", String.mk (main ++ '/' :: sub))]
        "Content-Type" = some (String.mk (main ++ '/' :: sub)) := by
      simp [assocGet]
    have hslash : hasSlash (String.mk (main ++ '/' :: sub)) = true := by
      simp only [hasSlash, hdata]
      have hmem : '/' ∈ main ++ '/' :: sub :=
        List.mem_append_right main (List.mem_cons_self _ _)
      simp [hmem]
    have hmain : mainTokenOf (String.mk (main ++ '/' :: sub)) = String.mk main := by
      simp only [mainTokenOf, hdata, takeWhile_append_slash main sub hm]
    have hctq : ctQuick [("Content-Type", String.mk (main ++ '/' :: sub))] =
        String.mk (main ++ '/' :: sub) := by
      simp [ctQuick, hget, jsOrS, hne]
    have hctm : ctMedia [("Content-Type", String.mk (main ++ '/' :: sub))] =
        String.mk (main ++ '/' :: sub) := by
      simp [ctMedia, hget, jsOrS, hne]
    constructor
    · simp [keyQuick, mainQuick, hctq, hslash, hmain]
    · simp [keyMedia, mainMedia, hctm, hslash, hmain]
  · intro v
    constructor
    · by_cases hv : v = ""
      · subst hv; decide
      · simp [keyQuick, ctQuick, assocGet, jsOrS, hv]
    · simp only [keyMedia, ctMedia, assocGet]
      rw [if_neg (by decide : ¬("content-type" = "Content-Type"))]
      decide

/-- C7 witness: the amended classifier theorem applied to the content
type image/png. -/
theorem c7_classifier_witness :
    ('/' ∉ "image".toList) ∧
      keyQuick [("Content-Type", String.mk ("image".toList ++ '/' :: "png".toList))] =
        (if (["image", "video", "audio", "application"]).contains
            (String.mk "image".toList)
         then String.mk "image".toList else "other") := by
  refine ⟨by decide, ?_⟩
  exact (c7_classifier_amended.1 "image".toList "png".toList (by decide)).1

end ABE
